import Mathlib

/-!
Shallow embedding of the redirect-request extractor of
`src/slack_parser.py` (class `SlackParser` and dataclass `RedirectRequest`).
Text is modelled as `List Char`; each helper mirrors one regex or method of
the source.  The regexes of the source are translated by hand into
deterministic scanning functions with the same leftmost-match,
greedy/lazy and backtracking behaviour on the ASCII fragment.
-/

namespace SlackRedirect

/-- Whitespace as matched by the `\s` class of the source regexes
(ASCII fragment of Python `\s`). -/
def isSpace (c : Char) : Bool :=
  c = ' ' || c = '\t' || c = '\n' || c = '\r' || c = '\x0b' || c = '\x0c'

/-- Characters admitted by the repeated class of `URL_PATTERN`,
`[^\s<>"\x27\]\)]`. -/
def urlBodyChar (c : Char) : Bool :=
  !(isSpace c || c = '<' || c = '>' || c = '"' || c = '\'' || c = ']' || c = ')')

/-- The trailing punctuation excluded from the final character of a URL
token by `URL_PATTERN`. -/
def urlPunct (c : Char) : Bool :=
  c = '.' || c = ',' || c = ';' || c = ':' || c = '!' || c = '?'

/-- A character that may end a URL token: in the body class and not
trailing punctuation. -/
def urlEndChar (c : Char) : Bool := urlBodyChar c && !urlPunct c

/-- Drop the maximal run of non-`urlEndChar` characters from the end of a
list.  This realises the backtracking of the greedy `+` in `URL_PATTERN`
against its final one-character class. -/
def dropTrailingBad (l : List Char) : List Char :=
  (l.reverse.dropWhile (fun c => !urlEndChar c)).reverse

/-- Given the scheme just matched and the text after it, complete the
match of `URL_PATTERN`: take the maximal run of body characters, back off
trailing punctuation, and require at least two characters after the
scheme (one for the `+`, one for the final class).  Returns the token and
the unconsumed rest. -/
def urlTail (sch rest : List Char) : Option (List Char × List Char) :=
  let run := rest.takeWhile urlBodyChar
  let body := dropTrailingBad run
  if 2 ≤ body.length then some (sch ++ body, rest.drop body.length) else none

/-- Match `URL_PATTERN` (`https?://...`) at the head of the list. -/
def urlMatchAt : List Char → Option (List Char × List Char)
  | 'h' :: 't' :: 't' :: 'p' :: 's' :: ':' :: '/' :: '/' :: rest =>
    urlTail ['h', 't', 't', 'p', 's', ':', '/', '/'] rest
  | 'h' :: 't' :: 't' :: 'p' :: ':' :: '/' :: '/' :: rest =>
    urlTail ['h', 't', 't', 'p', ':', '/', '/'] rest
  | _ => none

/-- Scanner of `re.findall(URL_PATTERN, text)`: at skip `0` try a match at
the current position; on success emit the token and skip the consumed
characters, on failure advance one character. -/
def findURLsGo : Nat → List Char → List (List Char)
  | _ + 1, [] => []
  | s + 1, _ :: cs => findURLsGo s cs
  | 0, [] => []
  | 0, c :: cs =>
    match urlMatchAt (c :: cs) with
    | some (tok, rest) => tok :: findURLsGo (cs.length - rest.length) cs
    | none => findURLsGo 0 cs

/-- Embedding of `re.findall(URL_PATTERN, text)`. -/
def findURLs (l : List Char) : List (List Char) := findURLsGo 0 l

/-- The URL-syntax predicate: starts with `http://` or `https://`, all
further characters in the body class, nonempty after the scheme, and not
ending in trailing punctuation. -/
def isUrlToken (u : List Char) : Bool :=
  match u with
  | 'h' :: 't' :: 't' :: 'p' :: 's' :: ':' :: '/' :: '/' :: rest =>
    !rest.isEmpty && rest.all urlBodyChar && urlEndChar (rest.getLastD '?')
  | 'h' :: 't' :: 't' :: 'p' :: ':' :: '/' :: '/' :: rest =>
    !rest.isEmpty && rest.all urlBodyChar && urlEndChar (rest.getLastD '?')
  | _ => false


/-- Match the literal scheme `https?://` at the head of the list,
returning the matched characters and the rest. -/
def urlMatchSch : List Char → Option (List Char × List Char)
  | 'h' :: 't' :: 't' :: 'p' :: 's' :: ':' :: '/' :: '/' :: rest =>
    some (['h', 't', 't', 'p', 's', ':', '/', '/'], rest)
  | 'h' :: 't' :: 't' :: 'p' :: ':' :: '/' :: '/' :: rest =>
    some (['h', 't', 't', 'p', ':', '/', '/'], rest)
  | _ => none

/-- Match of `<(https?://[^|>]+)\|[^>]+>` at the head of the list: a chat
markup wrapper with a display label.  Returns the bare URL (group 1, the
replacement of the first `re.sub` of `_clean_slack_text`) and the rest
after the closing `>`. -/
def matchWrapper1 : List Char → Option (List Char × List Char)
  | '<' :: rest =>
    match urlMatchSch rest with
    | some (sch, rest2) =>
      let body := rest2.takeWhile (fun c => c ≠ '|' && c ≠ '>')
      if body.isEmpty then none
      else
        match rest2.drop body.length with
        | '|' :: afterBar =>
          let lab := afterBar.takeWhile (fun c => c ≠ '>')
          if lab.isEmpty then none
          else
            match afterBar.drop lab.length with
            | '>' :: rest3 => some (sch ++ body, rest3)
            | _ => none
        | _ => none
    | none => none
  | _ => none

/-- Match of `<(https?://[^>]+)>` at the head of the list: a bare chat
markup wrapper (second `re.sub` of `_clean_slack_text`). -/
def matchWrapper2 : List Char → Option (List Char × List Char)
  | '<' :: rest =>
    match urlMatchSch rest with
    | some (sch, rest2) =>
      let body := rest2.takeWhile (fun c => c ≠ '>')
      if body.isEmpty then none
      else
        match rest2.drop body.length with
        | '>' :: rest3 => some (sch ++ body, rest3)
        | _ => none
    | none => none
  | _ => none

/-- Python `re.sub` for a matcher that consumes at least one character: replace
every leftmost, non-overlapping match by its replacement.  The skip
counter carries characters already consumed by the previous match. -/
def reSub (m : List Char → Option (List Char × List Char)) : Nat → List Char → List Char
  | _ + 1, [] => []
  | s + 1, _ :: cs => reSub m s cs
  | 0, [] => []
  | 0, c :: cs =>
    match m (c :: cs) with
    | some (rep, rest) => rep ++ reSub m (cs.length - rest.length) cs
    | none => c :: reSub m 0 cs

/-- Embedding of `SlackParser._clean_slack_text`: first replace `<url|label>` wrappers,
then `<url>` wrappers, each by their bare URL. -/
def cleanText (l : List Char) : List Char :=
  reSub matchWrapper2 0 (reSub matchWrapper1 0 l)

/-- True when the matcher fires at some position of the list (the
`re.search` existence check for a matcher). -/
def anyTail (f : List Char → Bool) : List Char → Bool
  | [] => f []
  | c :: cs => f (c :: cs) || anyTail f cs

/-- True when some suffix of the list matches one of the two wrapper
patterns of `_clean_slack_text`. -/
def hasWrapper (l : List Char) : Bool :=
  anyTail (fun t => (matchWrapper1 t).isSome) l
    || anyTail (fun t => (matchWrapper2 t).isSome) l


/-- Case-insensitive (ASCII) literal match: if the pattern is a prefix of
the list up to `Char.toLower`, return the rest. -/
def ciDropGo : List Char → List Char → Option (List Char)
  | [], l => some l
  | _ :: _, [] => none
  | p :: ps, c :: cs => if p.toLower = c.toLower then ciDropGo ps cs else none

/-- Case-insensitive literal pattern at the head of the list. -/
def ciDrop (p : String) (l : List Char) : Option (List Char) := ciDropGo p.toList l

/-- True when the literal occurs anywhere in the list, case-insensitively
(`re.search` of a literal with `re.IGNORECASE`). -/
def containsCI (p : String) (l : List Char) : Bool :=
  anyTail (fun t => (ciDrop p t).isSome) l

/-- Match of the second old-label pattern
`(?:redirigir|redirect)\s+(?:desde|from)\s*[:\-]?\s*` at the head of the
list (the tail after the second keyword is fully nullable). -/
def redirectFromHere (l : List Char) : Bool :=
  match (ciDrop "redirigir" l).orElse (fun _ => ciDrop "redirect" l) with
  | some r =>
    let ws := r.takeWhile isSpace
    !ws.isEmpty
      && ((ciDrop "desde" (r.drop ws.length)).isSome
        || (ciDrop "from" (r.drop ws.length)).isSome)
  | none => false

/-- Match of the second new-label pattern
`(?:redirigir|redirect)\s+(?:a|to|hacia)\s*[:\-]?\s*` at the head of the
list. -/
def redirectToHere (l : List Char) : Bool :=
  match (ciDrop "redirigir" l).orElse (fun _ => ciDrop "redirect" l) with
  | some r =>
    let ws := r.takeWhile isSpace
    !ws.isEmpty
      && ((ciDrop "a" (r.drop ws.length)).isSome
        || (ciDrop "to" (r.drop ws.length)).isSome
        || (ciDrop "hacia" (r.drop ws.length)).isSome)
  | none => false

/-- Embedding of `re.search` of the joined `OLD_URL_PATTERNS` with `re.IGNORECASE`.
In the first pattern `(?:old|vieja|antigua|from|de|origen)s?\s*
(?:ones?|urls?)?\s*[:\-]?\s*` everything after the keyword group is
nullable, so the search succeeds exactly when one of the keywords occurs
as a substring. -/
def hasOldLabel (l : List Char) : Bool :=
  containsCI "old" l || containsCI "vieja" l || containsCI "antigua" l
    || containsCI "from" l || containsCI "de" l || containsCI "origen" l
    || anyTail redirectFromHere l

/-- Embedding of `re.search` of the joined `NEW_URL_PATTERNS` with `re.IGNORECASE`;
as for the old labels, the first pattern reduces to substring occurrence
of one of `new|nueva|to|a|destino|hacia`. -/
def hasNewLabel (l : List Char) : Bool :=
  containsCI "new" l || containsCI "nueva" l || containsCI "to" l
    || containsCI "a" l || containsCI "destino" l || containsCI "hacia" l
    || anyTail redirectToHere l

/-- Python `str.strip()` on the ASCII fragment. -/
def trimChars (l : List Char) : List Char :=
  ((l.dropWhile isSpace).reverse.dropWhile isSpace).reverse

/-- Python `text.split(chr 10)`. -/
def splitLines : List Char → List (List Char)
  | [] => [[]]
  | c :: cs =>
    if c = '\n' then [] :: splitLines cs
    else
      match splitLines cs with
      | [] => [[c]]
      | h :: t => (c :: h) :: t

/-- The two-state section marker of `_parse_labeled_format`
(`current_type`), `none` for the initial `None`. -/
inductive UrlSection where
  | old : UrlSection
  | new : UrlSection
deriving DecidableEq

/-- One iteration of the line loop of `_parse_labeled_format`: strip the
line, skip it when empty, update the section marker (old label checked
first, then new label, else keep), and append the line's URL tokens to
the accumulator of the active section. -/
def scanStep (acc : List (List Char) × List (List Char) × Option UrlSection)
    (line : List Char) : List (List Char) × List (List Char) × Option UrlSection :=
  let t := trimChars line
  if t.isEmpty then acc
  else
    let cur := if hasOldLabel t then some UrlSection.old
      else if hasNewLabel t then some UrlSection.new
      else acc.2.2
    let us := findURLs t
    match cur with
    | some UrlSection.old => (acc.1 ++ us, acc.2.1, cur)
    | some UrlSection.new => (acc.1, acc.2.1 ++ us, cur)
    | none => acc

/-- Positional pairing with truncation at the shorter list: the `zip` of
the equal-count branch of `_parse_labeled_format`, and also the
`enumerate` loop of its unequal-count branch, whose guard
`i < len(new_urls)` stops at the shorter list. -/
def pairPositional : List (List Char) → List (List Char) → List (List Char × List Char)
  | o :: os, n :: ns => (o, n) :: pairPositional os ns
  | _, _ => []

/-- The pairing tie-break of `_parse_labeled_format` after the line scan:
nothing when either accumulator is empty; fan-in when exactly one new
URL; otherwise positional pairing (equal counts, or truncation). -/
def createPairs (olds news : List (List Char)) : List (List Char × List Char) :=
  if olds.isEmpty || news.isEmpty then []
  else if news.length = 1 then olds.map (fun o => (o, news.getD 0 []))
  else if olds.length = news.length then pairPositional olds news
  else pairPositional olds news

/-- Embedding of `SlackParser._parse_labeled_format` (Strategy A). -/
def parseLabeledFormat (t : List Char) : List (List Char × List Char) :=
  let urls := findURLs t
  if urls.length < 2 then []
  else if hasOldLabel t && hasNewLabel t then
    let acc := (splitLines t).foldl scanStep ([], [], none)
    createPairs acc.1 acc.2.1
  else []


/-- First element of a list of alternatives that is `some`, in order:
the alternation of a regex at a fixed position. -/
def firstSome : List (Option α) → Option α
  | [] => none
  | o :: os => o.orElse (fun _ => firstSome os)

/-- The single-character class `[:\-]`. -/
def sepColonDash : List Char → Option (List Char)
  | ':' :: r => some r
  | '-' :: r => some r
  | _ => none

/-- The tail `\s*(?:ones?|urls?)?\s*[:\-]` of the old-section pattern of
`_parse_multi_old_urls`, with the greedy backtracking order of the
optional group (whitespace runs never need to backtrack because no
successor token starts with whitespace). -/
def oldLabelOptTail (l : List Char) : Option (List Char) :=
  let l2 := l.dropWhile isSpace
  firstSome
    [(ciDrop "ones" l2).bind (fun r => sepColonDash (r.dropWhile isSpace)),
     (ciDrop "one" l2).bind (fun r => sepColonDash (r.dropWhile isSpace)),
     (ciDrop "urls" l2).bind (fun r => sepColonDash (r.dropWhile isSpace)),
     (ciDrop "url" l2).bind (fun r => sepColonDash (r.dropWhile isSpace)),
     sepColonDash (l2.dropWhile isSpace)]

/-- The prefix `(?:old|vieja|antigua)s?` of the old-section pattern of
`_parse_multi_old_urls` followed by `oldLabelOptTail`, at the head of the
list; `s?` is greedy, so the variant with `s` is tried first. -/
def oldSectionAt (l : List Char) : Option (List Char) :=
  (firstSome [ciDrop "old" l, ciDrop "vieja" l, ciDrop "antigua" l]).bind (fun r =>
    match ciDrop "s" r with
    | some rs => (oldLabelOptTail rs).orElse (fun _ => oldLabelOptTail r)
    | none => oldLabelOptTail r)

/-- The terminating alternation `(?:new|nueva|to|a|destino)` of the
old-section pattern, at the head of the list. -/
def termAt (l : List Char) : Option (List Char) :=
  firstSome
    [ciDrop "new" l, ciDrop "nueva" l, ciDrop "to" l, ciDrop "a" l, ciDrop "destino" l]

/-- Scan for the earliest match of the terminating alternation, returning
the characters before it and the rest after it. -/
def findTermGo : List Char → Option (List Char × List Char)
  | [] => none
  | c :: cs =>
    match termAt (c :: cs) with
    | some rest => some ([], rest)
    | none => (findTermGo cs).map (fun g => (c :: g.1, g.2))

/-- The lazy `(.+?)` (with `re.DOTALL`) followed by the terminating
alternation: at least one arbitrary character, then the earliest
terminator.  Returns group 1 and the rest after the terminator. -/
def findTerm : List Char → Option (List Char × List Char)
  | [] => none
  | c :: cs => (findTermGo cs).map (fun g => (c :: g.1, g.2))

/-- Leftmost match of the whole old-section pattern of
`_parse_multi_old_urls` over the text: at each position try the labeled
prefix and then the lazy segment up to a terminator; on failure advance
one character. -/
def findOldSection : List Char → Option (List Char × List Char)
  | [] => none
  | c :: cs =>
    match (oldSectionAt (c :: cs)).bind findTerm with
    | some gr => some gr
    | none => findOldSection cs

/-- Embedding of `SlackParser._parse_multi_old_urls` (Strategy B): URLs of the old
section all pair with the first URL after the match. -/
def parseMultiOldUrls (t : List Char) : List (List Char × List Char) :=
  match findOldSection t with
  | none => []
  | some (g1, rem) =>
    let olds := findURLs g1
    let news := findURLs rem
    if !olds.isEmpty && !news.isEmpty then olds.map (fun o => (o, news.getD 0 []))
    else []

/-- The netloc component `urllib.parse.urlsplit` extracts from the URL
tokens the code feeds it: the text between the scheme's `//` and the
next `/`, `?` or `#`; empty for a string without a scheme (as `urlparse`
yields). -/
def netloc (u : List Char) : List Char :=
  match urlMatchSch u with
  | some (_, rest) => rest.takeWhile (fun c => c ≠ '/' && c ≠ '?' && c ≠ '#')
  | none => []

/-- Embedding of `urllib.parse.urlparse(url).netloc` as `_same_domain`
calls it, `none` modelling a raised `ValueError`: CPython's `urlsplit`
raises `Invalid IPv6 URL` when the netloc contains `[` without `]` or
`]` without `[`.  `URL_PATTERN`'s body class admits `[` but excludes
`]`, so the one-sided-bracket raise is reachable from the code's own
tokens, while the bracketed-host validation of newer CPython, which
needs both brackets in the netloc, is not. -/
def urlparseNetloc (u : List Char) : Option (List Char) :=
  let nl := netloc u
  if (nl.contains '[' && !nl.contains ']') || (nl.contains ']' && !nl.contains '[') then
    none
  else some nl

/-- Embedding of `SlackParser._same_domain`: netloc equality, with the
`except Exception: return False` path taken when either `urlparse` call
raises. -/
def sameDomain (u v : List Char) : Bool :=
  match urlparseNetloc u, urlparseNetloc v with
  | some a, some b => a == b
  | _, _ => false

/-- Embedding of `SlackParser._parse_sequential_urls` (Strategy C). -/
def parseSequentialUrls (t : List Char) : List (List Char × List Char) :=
  let urls := findURLs t
  if urls.length < 2 then []
  else if urls.length = 2 then
    if sameDomain (urls.getD 0 []) (urls.getD 1 []) then
      [(urls.getD 0 [], urls.getD 1 [])]
    else []
  else []


/-- All the positions a greedy `\s*` can leave at the head of the list,
longest consumption first (the regex backtracking order). -/
def wsSuffixesDesc (l : List Char) : List (List Char) :=
  let k := (l.takeWhile isSpace).length
  (List.range (k + 1)).map (fun i => l.drop (k - i))

/-- The lazy `(.+?)(?:\n|$)` of the reason pattern (no `re.DOTALL`): the
run of characters up to, and excluding, the next newline or the end of
the input, required nonempty. -/
def captureTail (x : List Char) : Option (List Char) :=
  let g := x.takeWhile (fun c => c ≠ '\n')
  if g.isEmpty then none else some g

/-- The tail `\s*[:\-]?\s*(.+?)(?:\n|$)` of the reason pattern after the
keyword, with the backtracking order of the regex engine: outer
whitespace longest first; separator present before absent; inner
whitespace longest first. -/
def reasonAfterKw (l : List Char) : Option (List Char) :=
  firstSome ((wsSuffixesDesc l).map (fun r1 =>
    ((sepColonDash r1).bind
        (fun r2 => firstSome ((wsSuffixesDesc r2).map captureTail))).orElse
      (fun _ => firstSome ((wsSuffixesDesc r1).map captureTail))))

/-- The keyword alternation `(?:reason|raz[oó]n|motivo)` of
`_extract_reason` at the head of the list (accent matching restricted to
the literal `ó`). -/
def reasonKwAt (l : List Char) : Option (List Char) :=
  firstSome [ciDrop "reason" l, ciDrop "razon" l, ciDrop "razón" l, ciDrop "motivo" l]

/-- Embedding of `SlackParser._extract_reason`: leftmost match of the reason pattern,
with the captured group stripped; `none` when the whole pattern matches
nowhere. -/
def extractReason : List Char → Option (List Char)
  | [] => none
  | c :: cs =>
    match (reasonKwAt (c :: cs)).bind reasonAfterKw with
    | some g => some (trimChars g)
    | none => extractReason cs


/-- The fields of the Slack message dict that `parse_message` reads;
absent keys are `none` (the code supplies defaults through `.get`). -/
structure SlackMessage where
  text : Option String
  ts : Option String
  channel : Option String
  user : Option String
deriving DecidableEq

/-- The dataclass `RedirectRequest` of `slack_parser.py`. -/
structure RedirectRequest where
  old_url : String
  new_url : String
  message_ts : String
  channel_id : String
  requester : String
  reason : Option String
deriving DecidableEq

/-- The normalized text `parse_message` works on: the message's `text`
field (default empty) after `_clean_slack_text`. -/
def normText (msg : SlackMessage) : List Char :=
  cleanText (msg.text.getD "").toList

/-- The construction loop at the end of `parse_message`: one
`RedirectRequest` per extracted pair, all sharing the message metadata
and the extracted reason.  `cfgChannel` stands for
`Config.SLACK_CHANNEL_ID`, the default of the `channel` key. -/
def toRequests (cfgChannel : String) (msg : SlackMessage) (reason : Option (List Char))
    (ps : List (List Char × List Char)) : List RedirectRequest :=
  ps.map (fun p =>
    { old_url := String.mk p.1
      new_url := String.mk p.2
      message_ts := msg.ts.getD ""
      channel_id := msg.channel.getD cfgChannel
      requester := msg.user.getD "unknown"
      reason := reason.map String.mk })

/-- Embedding of `SlackParser.parse_message`: normalize, extract the reason, try the
three strategies in order keeping the first nonempty result, and build
the request records. -/
def parse_message (cfgChannel : String) (msg : SlackMessage) : List RedirectRequest :=
  let text := normText msg
  let reason := extractReason text
  let a := parseLabeledFormat text
  let b := if a.isEmpty then parseMultiOldUrls text else a
  let c := if b.isEmpty then parseSequentialUrls text else b
  toRequests cfgChannel msg reason c


/-! ### Exception-instrumented variant

Python list indexing raises `IndexError` when out of range; the variant
below threads every subscript of `parse_message`'s helpers through
`Except` so that the absence of an error path is a provable statement
rather than an artifact of the embedding. -/

/-- Python `l[i]`: the value, or an `IndexError`. -/
def listIdx (l : List α) (i : Nat) : Except String α :=
  match l.get? i with
  | some a => Except.ok a
  | none => Except.error "IndexError"

/-- The `enumerate` loop of the unequal-count branch of
`_parse_labeled_format`, indexing `new_urls[i]` under the guard
`i < len(new_urls)`. -/
def pairPosE (news : List (List Char)) : Nat → List (List Char) →
    Except String (List (List Char × List Char))
  | _, [] => Except.ok []
  | i, o :: os =>
    if i < news.length then do
      let n ← listIdx news i
      let rest ← pairPosE news (i + 1) os
      Except.ok ((o, n) :: rest)
    else pairPosE news (i + 1) os

/-- Variant of `createPairs` with instrumented indexing (`new_urls[0]` and
`new_urls[i]`). -/
def createPairsE (olds news : List (List Char)) :
    Except String (List (List Char × List Char)) :=
  if olds.isEmpty || news.isEmpty then Except.ok []
  else if news.length = 1 then
    (listIdx news 0).map (fun n0 => olds.map (fun o => (o, n0)))
  else if olds.length = news.length then Except.ok (pairPositional olds news)
  else pairPosE news 0 olds

/-- Variant of `_parse_labeled_format` with instrumented indexing. -/
def parseLabeledFormatE (t : List Char) : Except String (List (List Char × List Char)) :=
  let urls := findURLs t
  if urls.length < 2 then Except.ok []
  else if hasOldLabel t && hasNewLabel t then
    let acc := (splitLines t).foldl scanStep ([], [], none)
    createPairsE acc.1 acc.2.1
  else Except.ok []

/-- Variant of `_parse_multi_old_urls` with instrumented indexing (`new_urls[0]`). -/
def parseMultiOldUrlsE (t : List Char) : Except String (List (List Char × List Char)) :=
  match findOldSection t with
  | none => Except.ok []
  | some (g1, rem) =>
    let olds := findURLs g1
    let news := findURLs rem
    if !olds.isEmpty && !news.isEmpty then
      (listIdx news 0).map (fun n0 => olds.map (fun o => (o, n0)))
    else Except.ok []

/-- Variant of `_parse_sequential_urls` with instrumented indexing (`urls[0]`,
`urls[1]`). -/
def parseSequentialUrlsE (t : List Char) : Except String (List (List Char × List Char)) := do
  let urls := findURLs t
  if urls.length < 2 then Except.ok []
  else if urls.length = 2 then do
    let u0 ← listIdx urls 0
    let u1 ← listIdx urls 1
    if sameDomain u0 u1 then Except.ok [(u0, u1)] else Except.ok []
  else Except.ok []

/-- Variant of `parse_message` with every list subscript instrumented. -/
def parse_messageE (cfgChannel : String) (msg : SlackMessage) :
    Except String (List RedirectRequest) := do
  let text := normText msg
  let reason := extractReason text
  let a ← parseLabeledFormatE text
  let b ← if a.isEmpty then parseMultiOldUrlsE text else Except.ok a
  let c ← if b.isEmpty then parseSequentialUrlsE text else Except.ok b
  Except.ok (toRequests cfgChannel msg reason c)

/-- A two-URL message whose two URL tokens are identical. -/
def msgSameUrl : SlackMessage :=
  { text := some "https://x.com/ab https://x.com/ab", ts := some "2", channel := none,
    user := none }

/-- A labeled two-URL message. -/
def msgLabeled : SlackMessage :=
  { text := some "Old: https://s.com/p1\nNew: https://s.com/p2", ts := some "3",
    channel := none, user := none }

/-- The request `parse_message` extracts from `msgLabeled`. -/
def reqLabeled : RedirectRequest :=
  { old_url := "https://s.com/p1", new_url := "https://s.com/p2", message_ts := "3",
    channel_id := "C0", requester := "unknown", reason := none }

/-- A message whose text holds exactly one URL-syntax token, which
Strategy B nevertheless splits into an old/new pair at the embedded
keyword `to`. -/
def msgOneToken : SlackMessage :=
  { text := some "old:https://x.com/ztohttps://y.com/b", ts := some "4", channel := none,
    user := none }

/-- The fan-in scenario: four URLs after an old label, one after a new
label. -/
def msgFanIn : SlackMessage :=
  { text := some
      "Old ones:\nhttps://s.com/p1\nhttps://s.com/p2\nhttps://s.com/p3\nhttps://s.com/p4\nNew:\nhttps://s.com/p9",
    ts := some "5", channel := none, user := some "ed" }

/-- A single-line message satisfying both Strategy A's preconditions (two
URL tokens, an old keyword `de` inside the first URL, a new keyword `a`
inside the second) and Strategy C's (exactly two same-host tokens). -/
def msgBothAC : SlackMessage :=
  { text := some "https://x.com/de https://x.com/pato", ts := some "6", channel := none,
    user := none }

/-- An unlabeled message with exactly two same-host URLs. -/
def msgTwoSame : SlackMessage :=
  { text := some "see https://x.com/a1 plus https://x.com/b2", ts := some "7",
    channel := none, user := none }

/-- An unlabeled message with exactly two URL tokens whose netlocs are
the equal strings `[x`: an unclosed bracket, on which `urlparse` raises
and `_same_domain` therefore returns `False`. -/
def msgBracket : SlackMessage :=
  { text := some "https://[x/p1 https://[x/p2", ts := some "9", channel := none,
    user := none }

/-- The reason the specification describes, written from the spec's
words: the remainder of the line after the first case-insensitive label
token (`reason`, `razon`/`razón`, `motivo`), its optional surrounding
spaces and optional `:` or `-` separator, trimmed; absent when no label
token occurs. -/
def reasonSpec : List Char → Option (List Char)
  | [] => none
  | c :: cs =>
    match reasonKwAt (c :: cs) with
    | some r =>
      let r1 := r.dropWhile isSpace
      let r2 := match sepColonDash r1 with
        | some x => x
        | none => r1
      some (trimChars (r2.takeWhile (fun ch => ch ≠ '\n')))
    | none => reasonSpec cs

/-- A labeled message carrying a reason line. -/
def msgReason : SlackMessage :=
  { text := some "Old: https://r.com/p1\nNew: https://r.com/p2\nReason: dead link, replaced",
    ts := some "8", channel := none, user := none }

/-- The request `parse_message` extracts from `msgReason`. -/
def reqReason : RedirectRequest :=
  { old_url := "https://r.com/p1", new_url := "https://r.com/p2", message_ts := "8",
    channel_id := "CH", requester := "unknown", reason := some "dead link, replaced" }

/-! ### Helper lemmas -/

theorem dropWhile_first_not (q : Char → Bool) :
    ∀ (l : List Char) (a : Char) (ys : List Char), l.dropWhile q = a :: ys → q a = false := by
  intro l
  induction l with
  | nil => intro a ys h; simp [List.dropWhile] at h
  | cons c cs ih =>
    intro a ys h
    rw [List.dropWhile_cons] at h
    split at h
    · exact ih a ys h
    · rename_i hq
      cases h
      simpa using hq

theorem mem_takeWhile_sat {p : Char → Bool} :
    ∀ {l : List Char} {a : Char}, a ∈ l.takeWhile p → p a = true := by
  intro l
  induction l with
  | nil => intro a h; simp [List.takeWhile] at h
  | cons c cs ih =>
    intro a h
    rw [List.takeWhile_cons] at h
    split at h
    · rcases List.mem_cons.mp h with rfl | h2
      · assumption
      · exact ih h2
    · simp at h

theorem mem_dropTrailingBad {a : Char} {l : List Char} (h : a ∈ dropTrailingBad l) : a ∈ l := by
  unfold dropTrailingBad at h
  rw [List.mem_reverse] at h
  have h2 := (List.dropWhile_sublist (fun c => !urlEndChar c) (l := l.reverse)).subset h
  exact List.mem_reverse.mp h2

theorem getLastD_concat_char (m : List Char) (a d : Char) : (m ++ [a]).getLastD d = a := by
  induction m with
  | nil => rfl
  | cons c cs ih => simp [List.getLastD, ih]

theorem dropTrailingBad_last (l : List Char) :
    dropTrailingBad l = [] ∨ urlEndChar ((dropTrailingBad l).getLastD '?') = true := by
  unfold dropTrailingBad
  cases hy : l.reverse.dropWhile (fun c => !urlEndChar c) with
  | nil => left; simp
  | cons a ys =>
    right
    have hq := dropWhile_first_not (fun c => !urlEndChar c) l.reverse a ys hy
    rw [List.reverse_cons, getLastD_concat_char]
    simpa using hq

theorem urlTail_isUrlToken {sch rest tok r : List Char}
    (hs : sch = ['h', 't', 't', 'p', 's', ':', '/', '/']
      ∨ sch = ['h', 't', 't', 'p', ':', '/', '/'])
    (h : urlTail sch rest = some (tok, r)) : isUrlToken tok = true := by
  simp only [urlTail] at h
  split at h
  case isFalse => exact absurd h (by simp)
  case isTrue hb =>
    have h' : sch ++ dropTrailingBad (rest.takeWhile urlBodyChar) = tok ∧
        rest.drop (dropTrailingBad (rest.takeWhile urlBodyChar)).length = r := by
      simpa using h
    obtain ⟨h1, _⟩ := h'
    subst h1
    have hne : dropTrailingBad (rest.takeWhile urlBodyChar) ≠ [] := by
      intro e; rw [e] at hb; simp at hb
    have hall : (dropTrailingBad (rest.takeWhile urlBodyChar)).all urlBodyChar = true := by
      rw [List.all_eq_true]
      intro x hx
      exact mem_takeWhile_sat (mem_dropTrailingBad hx)
    have hlast : urlEndChar ((dropTrailingBad (rest.takeWhile urlBodyChar)).getLast?.getD '?')
        = true := by
      rcases dropTrailingBad_last (rest.takeWhile urlBodyChar) with he | hgood
      · exact absurd he hne
      · simpa [List.getLastD_eq_getLast?] using hgood
    rcases hs with rfl | rfl <;>
      simp [isUrlToken, hne, hall, hlast, List.getLastD_eq_getLast?]

theorem urlMatchAt_isUrlToken {l tok r : List Char} (h : urlMatchAt l = some (tok, r)) :
    isUrlToken tok = true := by
  rw [urlMatchAt.eq_def] at h
  split at h
  · exact urlTail_isUrlToken (Or.inl rfl) h
  · exact urlTail_isUrlToken (Or.inr rfl) h
  · exact absurd h (by simp)

theorem mem_findURLsGo :
    ∀ (l : List Char) (s : Nat) (u : List Char), u ∈ findURLsGo s l → isUrlToken u = true := by
  intro l
  induction l with
  | nil => intro s u h; cases s <;> simp [findURLsGo] at h
  | cons c cs ih =>
    intro s u h
    cases s with
    | succ s' =>
      rw [findURLsGo] at h
      exact ih s' u h
    | zero =>
      rw [findURLsGo] at h
      cases hm : urlMatchAt (c :: cs) with
      | none => rw [hm] at h; exact ih 0 u h
      | some tr =>
        obtain ⟨tok, rest⟩ := tr
        rw [hm] at h
        rcases List.mem_cons.mp h with rfl | h2
        · exact urlMatchAt_isUrlToken hm
        · exact ih _ u h2

theorem mem_findURLs {l u : List Char} (h : u ∈ findURLs l) : isUrlToken u = true :=
  mem_findURLsGo l 0 u h

theorem isUrlToken_ne_nil {u : List Char} (h : isUrlToken u = true) : u ≠ [] := by
  intro e
  rw [e] at h
  simp [isUrlToken] at h

theorem mem_pairPositional :
    ∀ {a b : List (List Char)} {p : List Char × List Char},
      p ∈ pairPositional a b → p.1 ∈ a ∧ p.2 ∈ b := by
  intro a
  induction a with
  | nil => intro b p h; simp [pairPositional] at h
  | cons o os ih =>
    intro b p h
    cases b with
    | nil => simp [pairPositional] at h
    | cons n ns =>
      rw [pairPositional] at h
      rcases List.mem_cons.mp h with rfl | h2
      · exact ⟨List.mem_cons_self o os, List.mem_cons_self n ns⟩
      · obtain ⟨h1, h2'⟩ := ih h2
        exact ⟨List.mem_cons_of_mem _ h1, List.mem_cons_of_mem _ h2'⟩

theorem getD_zero_mem {l : List (List Char)} (h : l ≠ []) (d : List Char) : l.getD 0 d ∈ l := by
  cases l with
  | nil => exact absurd rfl h
  | cons x xs => simp [List.getD]

theorem mem_createPairs {olds news : List (List Char)} {p : List Char × List Char}
    (h : p ∈ createPairs olds news) : p.1 ∈ olds ∧ p.2 ∈ news := by
  unfold createPairs at h
  split at h
  · simp at h
  case isFalse hg =>
    have hn : news ≠ [] := by
      intro e
      subst e
      simp at hg
    split at h
    · rcases List.mem_map.mp h with ⟨o, ho, he⟩
      have h1 : p.1 = o := by rw [← he]
      have h2 : p.2 = news.getD 0 [] := by rw [← he]
      rw [h1, h2]
      exact ⟨ho, getD_zero_mem hn _⟩
    · split at h
      · exact mem_pairPositional h
      · exact mem_pairPositional h

theorem scanStep_fst (acc : List (List Char) × List (List Char) × Option UrlSection)
    (line : List Char) :
    (scanStep acc line).1 = acc.1 ∨
      (scanStep acc line).1 = acc.1 ++ findURLs (trimChars line) := by
  simp only [scanStep]
  split
  · exact Or.inl rfl
  · split
    · exact Or.inr rfl
    · exact Or.inl rfl
    · exact Or.inl rfl

theorem scanStep_snd (acc : List (List Char) × List (List Char) × Option UrlSection)
    (line : List Char) :
    (scanStep acc line).2.1 = acc.2.1 ∨
      (scanStep acc line).2.1 = acc.2.1 ++ findURLs (trimChars line) := by
  simp only [scanStep]
  split
  · exact Or.inl rfl
  · split
    · exact Or.inl rfl
    · exact Or.inr rfl
    · exact Or.inl rfl

theorem foldl_scanStep_mem_fst :
    ∀ (lines : List (List Char)) (acc : List (List Char) × List (List Char) × Option UrlSection)
      (x : List Char), x ∈ (lines.foldl scanStep acc).1 →
      x ∈ acc.1 ∨ ∃ line ∈ lines, x ∈ findURLs (trimChars line) := by
  intro lines
  induction lines with
  | nil => intro acc x h; exact Or.inl h
  | cons l ls ih =>
    intro acc x h
    rw [List.foldl_cons] at h
    rcases ih (scanStep acc l) x h with hx | ⟨line, hl, hx⟩
    · rcases scanStep_fst acc l with he | he
      · rw [he] at hx
        exact Or.inl hx
      · rw [he] at hx
        rcases List.mem_append.mp hx with h1 | h2
        · exact Or.inl h1
        · exact Or.inr ⟨l, List.mem_cons_self l ls, h2⟩
    · exact Or.inr ⟨line, List.mem_cons_of_mem _ hl, hx⟩

theorem foldl_scanStep_mem_snd :
    ∀ (lines : List (List Char)) (acc : List (List Char) × List (List Char) × Option UrlSection)
      (x : List Char), x ∈ (lines.foldl scanStep acc).2.1 →
      x ∈ acc.2.1 ∨ ∃ line ∈ lines, x ∈ findURLs (trimChars line) := by
  intro lines
  induction lines with
  | nil => intro acc x h; exact Or.inl h
  | cons l ls ih =>
    intro acc x h
    rw [List.foldl_cons] at h
    rcases ih (scanStep acc l) x h with hx | ⟨line, hl, hx⟩
    · rcases scanStep_snd acc l with he | he
      · rw [he] at hx
        exact Or.inl hx
      · rw [he] at hx
        rcases List.mem_append.mp hx with h1 | h2
        · exact Or.inl h1
        · exact Or.inr ⟨l, List.mem_cons_self l ls, h2⟩
    · exact Or.inr ⟨line, List.mem_cons_of_mem _ hl, hx⟩

theorem mem_parseLabeledFormat {t : List Char} {p : List Char × List Char}
    (h : p ∈ parseLabeledFormat t) : isUrlToken p.1 = true ∧ isUrlToken p.2 = true := by
  simp only [parseLabeledFormat] at h
  split at h
  · simp at h
  · split at h
    · obtain ⟨h1, h2⟩ := mem_createPairs h
      constructor
      · rcases foldl_scanStep_mem_fst (splitLines t) ([], [], none) p.1 h1 with hx | ⟨_, _, hx⟩
        · simp at hx
        · exact mem_findURLs hx
      · rcases foldl_scanStep_mem_snd (splitLines t) ([], [], none) p.2 h2 with hx | ⟨_, _, hx⟩
        · simp at hx
        · exact mem_findURLs hx
    · simp at h

theorem mem_parseMultiOldUrls {t : List Char} {p : List Char × List Char}
    (h : p ∈ parseMultiOldUrls t) : isUrlToken p.1 = true ∧ isUrlToken p.2 = true := by
  simp only [parseMultiOldUrls] at h
  split at h
  · simp at h
  case h_2 g1 rem heq =>
    split at h
    case isTrue hg =>
      have hn : findURLs rem ≠ [] := by
        intro e
        rw [e] at hg
        simp at hg
      rcases List.mem_map.mp h with ⟨o, ho, he⟩
      have h1 : p.1 = o := by rw [← he]
      have h2 : p.2 = (findURLs rem).getD 0 [] := by rw [← he]
      constructor
      · rw [h1]
        exact mem_findURLs ho
      · rw [h2]
        exact mem_findURLs (getD_zero_mem hn _)
    · simp at h

theorem mem_parseSequentialUrls {t : List Char} {p : List Char × List Char}
    (h : p ∈ parseSequentialUrls t) : isUrlToken p.1 = true ∧ isUrlToken p.2 = true := by
  simp only [parseSequentialUrls] at h
  split at h
  · simp at h
  · split at h
    case isTrue h2 =>
      obtain ⟨u, v, huv⟩ := List.length_eq_two.mp h2
      rw [huv] at h
      split at h
      · rcases List.mem_singleton.mp h with rfl
        have hu : u ∈ findURLs t := by rw [huv]; exact List.mem_cons_self u [v]
        have hv : v ∈ findURLs t := by rw [huv]; simp
        constructor
        · simpa [List.getD] using mem_findURLs hu
        · simpa [List.getD] using mem_findURLs hv
      · simp at h
    · simp at h

theorem mem_ite_list {α : Type} {x : α} {c : Prop} [Decidable c] {u v : List α}
    (h : x ∈ if c then u else v) : x ∈ u ∨ x ∈ v := by
  split at h
  · exact Or.inl h
  · exact Or.inr h

theorem parse_message_pair_tokens (cfg : String) (msg : SlackMessage) :
    ∀ r ∈ parse_message cfg msg,
      isUrlToken r.old_url.toList = true ∧ isUrlToken r.new_url.toList = true := by
  intro r hr
  simp only [parse_message, toRequests] at hr
  rcases List.mem_map.mp hr with ⟨p, hp, he⟩
  have htok : isUrlToken p.1 = true ∧ isUrlToken p.2 = true := by
    rcases mem_ite_list hp with h1 | h1
    · exact mem_parseSequentialUrls h1
    · rcases mem_ite_list h1 with h2 | h2
      · exact mem_parseMultiOldUrls h2
      · exact mem_parseLabeledFormat h2
  constructor
  · have ho : r.old_url = String.mk p.1 := by rw [← he]
    rw [ho]
    exact htok.1
  · have hn : r.new_url = String.mk p.2 := by rw [← he]
    rw [hn]
    exact htok.2

theorem reSub_id_of_no_match (m : List Char → Option (List Char × List Char)) :
    ∀ (l : List Char), anyTail (fun t => (m t).isSome) l = false → reSub m 0 l = l := by
  intro l
  induction l with
  | nil => intro _; rfl
  | cons c cs ih =>
    intro h
    rw [anyTail] at h
    obtain ⟨h1, h2⟩ : (m (c :: cs)).isSome = false ∧ anyTail (fun t => (m t).isSome) cs
        = false := by simpa using h
    have hm : m (c :: cs) = none := by
      cases hmm : m (c :: cs)
      · rfl
      · rw [hmm] at h1; simp at h1
    rw [reSub, hm, ih h2]

theorem cleanText_id_of_no_wrapper {l : List Char} (h : hasWrapper l = false) :
    cleanText l = l := by
  obtain ⟨h1, h2⟩ : anyTail (fun t => (matchWrapper1 t).isSome) l = false ∧
      anyTail (fun t => (matchWrapper2 t).isSome) l = false := by
    simpa [hasWrapper] using h
  rw [cleanText, reSub_id_of_no_match _ l h1, reSub_id_of_no_match _ l h2]

theorem listIdx_getD {l : List (List Char)} {i : Nat} (h : i < l.length) :
    listIdx l i = Except.ok (l.getD i []) := by
  unfold listIdx
  cases hg : l.get? i with
  | none =>
    rw [List.get?_eq_none] at hg
    omega
  | some a =>
    have hga : l[i]? = some a := by rw [← List.get?_eq_getElem?]; exact hg
    simp [List.getD_eq_getElem?_getD, hga]

theorem ok_bind {α β : Type} (a : α) (f : α → Except String β) :
    (Except.ok a >>= f) = f a := rfl

theorem pairPosE_eq (news : List (List Char)) :
    ∀ (olds : List (List Char)) (i : Nat),
      pairPosE news i olds = Except.ok (pairPositional olds (news.drop i)) := by
  intro olds
  induction olds with
  | nil => intro i; simp [pairPosE, pairPositional]
  | cons o os ih =>
    intro i
    rw [pairPosE]
    split
    case isTrue hlt =>
      rw [listIdx_getD hlt, ok_bind, ih (i + 1), ok_bind]
      have hd : news.drop i = news.getD i [] :: news.drop (i + 1) := by
        rw [List.getD_eq_getElem _ _ hlt]
        exact List.drop_eq_getElem_cons hlt
      rw [hd, pairPositional]
    case isFalse hge =>
      rw [ih (i + 1)]
      have d1 : news.drop i = [] := List.drop_eq_nil_of_le (by omega)
      have d2 : news.drop (i + 1) = [] := List.drop_eq_nil_of_le (by omega)
      rw [d1, d2]
      simp [pairPositional]

theorem createPairsE_eq (olds news : List (List Char)) :
    createPairsE olds news = Except.ok (createPairs olds news) := by
  unfold createPairsE createPairs
  split_ifs with h1 h2 h3
  · rfl
  · have : 0 < news.length := by omega
    rw [listIdx_getD this]
    rfl
  · rfl
  · rw [pairPosE_eq]
    simp

theorem ok_map {α β : Type} (a : α) (f : α → β) :
    (Except.ok a).map f = (Except.ok (f a) : Except String β) := rfl

theorem parseLabeledFormatE_eq (t : List Char) :
    parseLabeledFormatE t = Except.ok (parseLabeledFormat t) := by
  simp only [parseLabeledFormatE, parseLabeledFormat]
  split_ifs
  · rfl
  · exact createPairsE_eq _ _
  · rfl

theorem parseMultiOldUrlsE_eq (t : List Char) :
    parseMultiOldUrlsE t = Except.ok (parseMultiOldUrls t) := by
  simp only [parseMultiOldUrlsE, parseMultiOldUrls]
  cases hm : findOldSection t with
  | none => rfl
  | some gr =>
    obtain ⟨g1, rem⟩ := gr
    change (if (!(findURLs g1).isEmpty && !(findURLs rem).isEmpty) = true then
        Except.map (fun n0 => List.map (fun o => (o, n0)) (findURLs g1))
          (listIdx (findURLs rem) 0)
      else Except.ok []) =
      Except.ok (if (!(findURLs g1).isEmpty && !(findURLs rem).isEmpty) = true then
        List.map (fun o => (o, (findURLs rem).getD 0 [])) (findURLs g1)
      else [])
    by_cases hg : (!(findURLs g1).isEmpty && !(findURLs rem).isEmpty) = true
    · have hn : 0 < (findURLs rem).length := by
        rcases hg' : findURLs rem with _ | _
        · rw [hg'] at hg; simp at hg
        · simp [hg']
      rw [listIdx_getD hn]
      simp [hg, ok_map]
    · simp [hg]

theorem parseSequentialUrlsE_eq (t : List Char) :
    parseSequentialUrlsE t = Except.ok (parseSequentialUrls t) := by
  simp only [parseSequentialUrlsE, parseSequentialUrls]
  split_ifs with h1 h2 h3
  · rfl
  · have i0 : 0 < (findURLs t).length := by omega
    have i1 : 1 < (findURLs t).length := by omega
    rw [listIdx_getD i0, ok_bind, listIdx_getD i1, ok_bind]
    simp only [List.getD_eq_getElem?_getD] at h3
    simp [h3]
  · have i0 : 0 < (findURLs t).length := by omega
    have i1 : 1 < (findURLs t).length := by omega
    rw [listIdx_getD i0, ok_bind, listIdx_getD i1, ok_bind]
    simp only [List.getD_eq_getElem?_getD] at h3
    simp [h3]
  · rfl

theorem isEmpty_false_of_ne_nil {α : Type} {l : List α} (h : l ≠ []) : l.isEmpty = false := by
  rcases l with _ | _
  · exact absurd rfl h
  · rfl

theorem parse_message_eq_A (cfg : String) (msg : SlackMessage)
    (h : parseLabeledFormat (normText msg) ≠ []) :
    parse_message cfg msg = toRequests cfg msg (extractReason (normText msg))
      (parseLabeledFormat (normText msg)) := by
  have he : (parseLabeledFormat (normText msg)).isEmpty = false := isEmpty_false_of_ne_nil h
  simp [parse_message, he]

theorem parse_message_eq_B (cfg : String) (msg : SlackMessage)
    (h1 : parseLabeledFormat (normText msg) = [])
    (h2 : parseMultiOldUrls (normText msg) ≠ []) :
    parse_message cfg msg = toRequests cfg msg (extractReason (normText msg))
      (parseMultiOldUrls (normText msg)) := by
  have he : (parseMultiOldUrls (normText msg)).isEmpty = false := isEmpty_false_of_ne_nil h2
  simp [parse_message, h1, he]

theorem parse_message_eq_C (cfg : String) (msg : SlackMessage)
    (h1 : parseLabeledFormat (normText msg) = [])
    (h2 : parseMultiOldUrls (normText msg) = []) :
    parse_message cfg msg = toRequests cfg msg (extractReason (normText msg))
      (parseSequentialUrls (normText msg)) := by
  simp [parse_message, h1, h2]

theorem parseSequentialUrls_two {t u v : List Char} (h : findURLs t = [u, v]) :
    parseSequentialUrls t = if sameDomain u v = true then [(u, v)] else [] := by
  simp only [parseSequentialUrls]
  rw [h]
  simp [List.getD]

theorem parseSequentialUrls_many {t : List Char} (h : 3 ≤ (findURLs t).length) :
    parseSequentialUrls t = [] := by
  simp only [parseSequentialUrls]
  rw [if_neg (by omega), if_neg (by omega)]

theorem pairPositional_eq_zip :
    ∀ (a b : List (List Char)), pairPositional a b = a.zip b := by
  intro a
  induction a with
  | nil => intro b; cases b <;> simp [pairPositional]
  | cons o os ih =>
    intro b
    cases b with
    | nil => simp [pairPositional]
    | cons n ns => rw [pairPositional, List.zip_cons_cons, ih]

theorem zip_take_length :
    ∀ (a b : List (List Char)), (a.take b.length).zip b = a.zip b := by
  intro a
  induction a with
  | nil => intro b; simp
  | cons o os ih =>
    intro b
    cases b with
    | nil => simp
    | cons n ns => simp [List.zip_cons_cons, ih]

/-! ### Claim theorems -/

/-- C9: for every input message, `parse_message` never reaches an error
path — the exception-instrumented run returns `Except.ok` of the plain
result on every message; ambiguity and malformed labels only ever yield
an empty list. -/
theorem c9_no_exception (cfg : String) (msg : SlackMessage) :
    parse_messageE cfg msg = Except.ok (parse_message cfg msg) := by
  simp only [parse_messageE, parse_message]
  rw [parseLabeledFormatE_eq, ok_bind]
  split_ifs with h1 h2
  · rw [parseMultiOldUrlsE_eq, ok_bind, if_pos h2, parseSequentialUrlsE_eq, ok_bind]
  · rw [parseMultiOldUrlsE_eq, ok_bind, if_neg h2, ok_bind]
  · rw [ok_bind, if_neg h1, ok_bind]

/-- C3 counterexample: `parse_message` can return a `RedirectRequest`
whose `new_url` equals its `old_url` (the code never compares the two),
so the claimed invariant `new_url ≠ old_url` fails. -/
theorem c3_counterexample :
    (parse_message "CH" msgSameUrl).map (fun r => (r.old_url, r.new_url))
        = [("https://x.com/ab", "https://x.com/ab")]
      ∧ (parse_message "CH" msgSameUrl).length = 1 := by
  decide

/-- C3 (amended): every `RedirectRequest` returned by `parse_message` has
a non-empty `old_url` and `new_url`, both satisfying the URL-syntax
predicate; the two URLs may however coincide. -/
theorem c3_amended (cfg : String) (msg : SlackMessage) :
    ∀ r ∈ parse_message cfg msg,
      r.old_url ≠ "" ∧ r.new_url ≠ "" ∧
        isUrlToken r.old_url.toList = true ∧ isUrlToken r.new_url.toList = true := by
  intro r hr
  obtain ⟨h1, h2⟩ := parse_message_pair_tokens cfg msg r hr
  refine ⟨?_, ?_, h1, h2⟩
  · exact fun e => isUrlToken_ne_nil h1 (by rw [e]; rfl)
  · exact fun e => isUrlToken_ne_nil h2 (by rw [e]; rfl)

theorem c3_witness :
    reqLabeled.old_url ≠ "" ∧ reqLabeled.new_url ≠ "" ∧
      isUrlToken reqLabeled.old_url.toList = true ∧
      isUrlToken reqLabeled.new_url.toList = true :=
  c3_amended "C0" msgLabeled reqLabeled (by decide)

/-- C4 counterexample: the normalizer is not idempotent — on nested
wrappers a first pass exposes a fresh wrapper that a second pass rewrites
again. -/
theorem c4_counterexample :
    cleanText (cleanText "<<https://ab>>".toList) ≠ cleanText "<<https://ab>>".toList := by
  decide

/-- C4 (amended): a single pass replaces each wrapper by its bare URL and
leaves other characters unchanged, but the normalizer is idempotent only
on texts whose normalized form contains no wrapper; re-running it on such
output is a no-op. -/
theorem c4_amended (t : List Char) (h : hasWrapper (cleanText t) = false) :
    cleanText (cleanText t) = cleanText t :=
  cleanText_id_of_no_wrapper h

theorem c4_witness :
    cleanText (cleanText "a <https://x.com/p|label> b".toList)
      = cleanText "a <https://x.com/p|label> b".toList :=
  c4_amended _ (by decide)

/-- C2 counterexample: a text with exactly one URL-syntax token from
which extraction still returns a redirect request, because Strategy B
slices the single token at the `to` keyword into two URL-shaped parts. -/
theorem c2_counterexample :
    (findURLs (msgOneToken.text.getD "").toList).length = 1
      ∧ (findURLs (normText msgOneToken)).length = 1
      ∧ parse_message "CH" msgOneToken ≠ [] := by
  decide

/-- C2 (amended): on a text with fewer than two URL-syntax tokens,
Strategy A and Strategy C yield no pairs, so only Strategy B can make the
extraction nonempty. -/
theorem c2_amended (t : List Char) (h : (findURLs t).length < 2) :
    parseLabeledFormat t = [] ∧ parseSequentialUrls t = [] := by
  constructor
  · simp only [parseLabeledFormat]
    rw [if_pos h]
  · simp only [parseSequentialUrls]
    rw [if_pos h]

theorem c2_witness :
    parseLabeledFormat "only https://x.com/one here".toList = []
      ∧ parseSequentialUrls "only https://x.com/one here".toList = [] :=
  c2_amended _ (by decide)

/-- C5: the pairing tie-break of Strategy A — nothing when an accumulator
is empty; fan-in onto a single new URL; positional pairing (`zip`) for
equal counts; positional pairing with old URLs beyond the new count
discarded otherwise. -/
theorem c5_pairing (olds news : List (List Char)) :
    (olds = [] ∨ news = [] → createPairs olds news = [])
    ∧ (olds ≠ [] → news.length = 1 →
        createPairs olds news = olds.map (fun o => (o, news.getD 0 [])))
    ∧ (olds ≠ [] → news ≠ [] → olds.length = news.length →
        createPairs olds news = olds.zip news)
    ∧ (olds ≠ [] → news ≠ [] → news.length ≠ 1 → olds.length ≠ news.length →
        createPairs olds news = (olds.take news.length).zip news) := by
  refine ⟨?_, ?_, ?_, ?_⟩
  · rintro (rfl | rfl) <;> simp [createPairs]
  · intro h1 h2
    have hg : (olds.isEmpty || news.isEmpty) = false := by
      rcases news with _ | _
      · simp at h2
      · simp [isEmpty_false_of_ne_nil h1]
    simp only [createPairs]
    rw [if_neg (by simp [hg]), if_pos h2]
  · intro h1 h2 h3
    by_cases hl : news.length = 1
    · obtain ⟨n, rfl⟩ := List.length_eq_one.mp hl
      obtain ⟨o, rfl⟩ := List.length_eq_one.mp (h3.trans hl)
      simp [createPairs, List.getD]
    · have hg : (olds.isEmpty || news.isEmpty) = false := by
        simp [isEmpty_false_of_ne_nil h1, isEmpty_false_of_ne_nil h2]
      simp only [createPairs]
      rw [if_neg (by simp [hg]), if_neg hl, if_pos h3, pairPositional_eq_zip]
  · intro h1 h2 h3 h4
    have hg : (olds.isEmpty || news.isEmpty) = false := by
      simp [isEmpty_false_of_ne_nil h1, isEmpty_false_of_ne_nil h2]
    simp only [createPairs]
    rw [if_neg (by simp [hg]), if_neg h3, if_neg h4, pairPositional_eq_zip, zip_take_length]

theorem c5_witness :
    createPairs ["https://s.com/p1".toList, "https://s.com/p2".toList]
        ["https://s.com/p9".toList]
      = [("https://s.com/p1".toList, "https://s.com/p9".toList),
         ("https://s.com/p2".toList, "https://s.com/p9".toList)] := by
  rw [(c5_pairing ["https://s.com/p1".toList, "https://s.com/p2".toList]
    ["https://s.com/p9".toList]).2.1 (by decide) (by decide)]
  decide

/-- C10: in the line scan of Strategy A, a line matching both an
old-label and a new-label pattern sets the section marker to OLD (the old
check comes first), so its URL tokens all land in the old accumulator. -/
theorem c10_old_precedence (olds news : List (List Char)) (cur : Option UrlSection)
    (line : List Char) (hne : (trimChars line).isEmpty = false)
    (hold : hasOldLabel (trimChars line) = true)
    (_hnew : hasNewLabel (trimChars line) = true) :
    scanStep (olds, news, cur) line
      = (olds ++ findURLs (trimChars line), news, some UrlSection.old) := by
  simp only [scanStep]
  rw [if_neg (by simp [hne]), if_pos hold]

theorem c10_witness :
    scanStep ([], [], none) "Old and new stuff: https://x.com/q".toList
      = (["https://x.com/q".toList], [], some UrlSection.old) := by
  have h := c10_old_precedence [] [] none "Old and new stuff: https://x.com/q".toList
    (by decide) (by decide) (by decide)
  exact h.trans (by decide)

/-- C1: when the normalized text satisfies Strategy A's preconditions and
the line scan accumulates the old URLs `olds` and exactly one new URL
`nu`, `parse_message` yields exactly `olds.length` requests, pairing
every old URL with that single new URL (fan-in). -/
theorem c1_fan_in (cfg : String) (msg : SlackMessage) (olds : List (List Char))
    (nu : List Char) (st : Option UrlSection)
    (hurls : ¬(findURLs (normText msg)).length < 2)
    (hold : hasOldLabel (normText msg) = true)
    (hnew : hasNewLabel (normText msg) = true)
    (hscan : (splitLines (normText msg)).foldl scanStep ([], [], none) = (olds, [nu], st))
    (hne : olds ≠ []) :
    parse_message cfg msg
        = toRequests cfg msg (extractReason (normText msg)) (olds.map (fun o => (o, nu)))
      ∧ (parse_message cfg msg).length = olds.length
      ∧ ∀ r ∈ parse_message cfg msg, r.new_url = String.mk nu := by
  have ha : parseLabeledFormat (normText msg) = olds.map (fun o => (o, nu)) := by
    simp only [parseLabeledFormat]
    rw [if_neg hurls, if_pos (by simp [hold, hnew]), hscan]
    simp only [createPairs]
    rw [if_neg (by simpa using hne),
      if_pos (show ([nu] : List (List Char)).length = 1 from rfl)]
    rfl
  have hane : parseLabeledFormat (normText msg) ≠ [] := by
    rw [ha]
    simpa using hne
  have hmain : parse_message cfg msg
      = toRequests cfg msg (extractReason (normText msg)) (olds.map (fun o => (o, nu))) := by
    rw [parse_message_eq_A cfg msg hane, ha]
  refine ⟨hmain, ?_, ?_⟩
  · rw [hmain]
    simp [toRequests]
  · intro r hr
    rw [hmain] at hr
    simp only [toRequests] at hr
    rcases List.mem_map.mp hr with ⟨p, hp, he⟩
    rcases List.mem_map.mp hp with ⟨o, _, hpe⟩
    rw [← he, ← hpe]

theorem c1_witness :
    parse_message "CH" msgFanIn
        = toRequests "CH" msgFanIn (extractReason (normText msgFanIn))
            (["https://s.com/p1".toList, "https://s.com/p2".toList, "https://s.com/p3".toList,
              "https://s.com/p4".toList].map (fun o => (o, "https://s.com/p9".toList)))
      ∧ (parse_message "CH" msgFanIn).length = 4 := by
  have h := c1_fan_in "CH" msgFanIn
    ["https://s.com/p1".toList, "https://s.com/p2".toList, "https://s.com/p3".toList,
     "https://s.com/p4".toList] "https://s.com/p9".toList (some UrlSection.new)
    (by decide) (by decide) (by decide) (by decide) (by decide)
  exact ⟨h.1, h.2.1.trans rfl⟩

/-- C6 counterexample: a text satisfying both Strategy A's and Strategy
C's preconditions on which Strategy A accumulates no new URLs and yields
nothing, so the extraction result equals Strategy C's output — the
claimed "never Strategy C's" fails. -/
theorem c6_counterexample :
    hasOldLabel (normText msgBothAC) = true
      ∧ hasNewLabel (normText msgBothAC) = true
      ∧ (findURLs (normText msgBothAC)).length = 2
      ∧ sameDomain "https://x.com/de".toList "https://x.com/pato".toList = true
      ∧ parseLabeledFormat (normText msgBothAC) = []
      ∧ parseSequentialUrls (normText msgBothAC)
          = [("https://x.com/de".toList, "https://x.com/pato".toList)]
      ∧ parse_message "CH" msgBothAC
          = [{ old_url := "https://x.com/de", new_url := "https://x.com/pato",
               message_ts := "6", channel_id := "CH", requester := "unknown",
               reason := none }] := by
  decide

/-- C6 (amended): `parse_message` tries the strategies in the strict
order A, B, C and returns the first nonempty result; in particular, when
Strategy A yields at least one pair the result is A's output.  Satisfying
A's preconditions alone does not suffice: when A's accumulators leave it
empty, the result can fall through to B or C. -/
theorem c6_priority (cfg : String) (msg : SlackMessage) :
    (parseLabeledFormat (normText msg) ≠ [] →
      parse_message cfg msg = toRequests cfg msg (extractReason (normText msg))
        (parseLabeledFormat (normText msg)))
    ∧ (parseLabeledFormat (normText msg) = [] → parseMultiOldUrls (normText msg) ≠ [] →
      parse_message cfg msg = toRequests cfg msg (extractReason (normText msg))
        (parseMultiOldUrls (normText msg)))
    ∧ (parseLabeledFormat (normText msg) = [] → parseMultiOldUrls (normText msg) = [] →
      parse_message cfg msg = toRequests cfg msg (extractReason (normText msg))
        (parseSequentialUrls (normText msg))) :=
  ⟨fun h => parse_message_eq_A cfg msg h,
   fun h1 h2 => parse_message_eq_B cfg msg h1 h2,
   fun h1 h2 => parse_message_eq_C cfg msg h1 h2⟩

theorem c6_witness :
    parse_message "C0" msgLabeled
      = toRequests "C0" msgLabeled (extractReason (normText msgLabeled))
          (parseLabeledFormat (normText msgLabeled)) :=
  (c6_priority "C0" msgLabeled).1 (by decide)

theorem sameDomain_bracket_false :
    netloc "https://[x/p1".toList = netloc "https://[x/p2".toList
      ∧ sameDomain "https://[x/p1".toList "https://[x/p2".toList = false := by
  decide

theorem parse_message_bracket_empty :
    (findURLs (normText msgBracket)).length = 2
      ∧ parse_message "CH" msgBracket = [] := by
  decide

/-- C7: when Strategies A and B both yield nothing, a text with exactly
two URL tokens yields the pair (first, second) precisely when the two
share a host — sharing a host meaning `_same_domain` returns `True`,
which is `false` both on differing netlocs and when `urlparse` raises —
and a text with three or more URL tokens yields nothing. -/
theorem c7_sequential (cfg : String) (msg : SlackMessage)
    (hA : parseLabeledFormat (normText msg) = [])
    (hB : parseMultiOldUrls (normText msg) = []) :
    (∀ u v, findURLs (normText msg) = [u, v] → sameDomain u v = true →
      parse_message cfg msg
        = toRequests cfg msg (extractReason (normText msg)) [(u, v)])
    ∧ (∀ u v, findURLs (normText msg) = [u, v] → sameDomain u v = false →
      parse_message cfg msg = [])
    ∧ (3 ≤ (findURLs (normText msg)).length → parse_message cfg msg = []) := by
  refine ⟨?_, ?_, ?_⟩
  · intro u v h hsd
    rw [parse_message_eq_C cfg msg hA hB, parseSequentialUrls_two h, if_pos hsd]
  · intro u v h hsd
    rw [parse_message_eq_C cfg msg hA hB, parseSequentialUrls_two h,
      if_neg (by simp [hsd])]
    rfl
  · intro h
    rw [parse_message_eq_C cfg msg hA hB, parseSequentialUrls_many h]
    rfl

theorem c7_witness :
    parse_message "CH" msgTwoSame
      = toRequests "CH" msgTwoSame (extractReason (normText msgTwoSame))
          [("https://x.com/a1".toList, "https://x.com/b2".toList)] :=
  ((c7_sequential "CH" msgTwoSame (by decide) (by decide)).1
    "https://x.com/a1".toList "https://x.com/b2".toList (by decide) (by decide))

/-- C8 counterexample: on the text `Reason:` the remainder of the line
after the label and its separator is empty, but the extractor returns
the separator itself (`:`) — the regex backtracks over the optional
`[:\-]?` and captures the colon — so the extractor differs from the
claimed remainder-after-separator behaviour. -/
theorem c8_counterexample :
    extractReason "Reason:".toList = some ":".toList
      ∧ reasonSpec "Reason:".toList = some []
      ∧ extractReason "Reason:".toList ≠ reasonSpec "Reason:".toList := by
  decide

/-- C8 (amended): the extracted reason — the stripped capture of the
first full match of the reason pattern, which on degenerate inputs can
be the bare separator or absent although a label occurs — is attached
unchanged to every request `parse_message` returns, however many pairs
were found; on a well-formed line such as `Reason: dead link, replaced`
it is the trimmed remainder of that line. -/
theorem c8_reason (cfg : String) (msg : SlackMessage) :
    (∀ r ∈ parse_message cfg msg,
      r.reason = (extractReason (normText msg)).map String.mk)
    ∧ extractReason
        "Old: https://s.com/p1\nNew: https://s.com/p2\nReason: dead link, replaced".toList
      = some "dead link, replaced".toList := by
  constructor
  · intro r hr
    simp only [parse_message, toRequests] at hr
    rcases List.mem_map.mp hr with ⟨p, _, he⟩
    rw [← he]
  · decide

theorem c8_witness :
    reqReason.reason = (extractReason (normText msgReason)).map String.mk :=
  (c8_reason "CH" msgReason).1 reqReason (by decide)

end SlackRedirect
